import Mathlib

/-!
Verification of the lumo tile-pyramid subsystem.

The tile coordinate, viewport and renderable geometry are embedded from the
repository sources (src/webapp/scripts/Coord.js, src/src/plot/Viewport.js and
the TileRenderable module).  The TilePyramid class itself is not present in
the repository snapshot (only its tests and callers are); its state machine
is modelled from the specification, with the repository's own test suite
(src/test/layer/TilePyramid.js) pinning the observable behaviour where the
two differ.  Machine integers are modelled as Nat/Int and the floating-point
UV arithmetic as exact rationals.
-/

/-- A tile coordinate (z, x, y).  Zoom is non-negative; x and y may be
unnormalized (any integer).  Embeds the coordinate triple of
src/webapp/scripts/Coord.js; the string hash `z-x-y` is injective on
triples, so the triple itself serves as the hash key. -/
structure TileCoord where
  z : Nat
  x : Int
  y : Int
deriving DecidableEq, Repr

namespace TileCoord

/-- Euclidean wrap of the x component modulo 2^z (`normalize` of the spec:
x reduced with Euclidean remainder so that -1 maps to 2^z - 1; y is kept). -/
def normalize (c : TileCoord) : TileCoord :=
  ⟨c.z, c.x % ((2 : Int) ^ c.z), c.y⟩

/-- Direct ancestor at `offset` levels up.  Embeds Coord.getParent of
src/webapp/scripts/Coord.js: floor division of x and y by 2^offset. -/
def getAncestor (c : TileCoord) (offset : Nat) : TileCoord :=
  ⟨c.z - offset, Int.fdiv c.x ((2 : Int) ^ offset), Int.fdiv c.y ((2 : Int) ^ offset)⟩

/-- Descendants at `offset` levels down in the deterministic row-major order
of Coord.getChildren of src/webapp/scripts/Coord.js (outer loop on x, inner
loop on y). -/
def getDescendants (c : TileCoord) (offset : Nat) : List TileCoord :=
  let scale : Int := (2 : Int) ^ offset
  (List.range (2 ^ offset)).flatMap (fun dx : Nat =>
    (List.range (2 ^ offset)).map (fun dy : Nat =>
      ⟨c.z + offset, c.x * scale + (dx : Int), c.y * scale + (dy : Int)⟩))

end TileCoord

/-- UV sub-rectangle of an ancestor tile corresponding to a descendant coord.
Embeds getUVOffset of the TileRenderable module: scale = 1/2^(D.z - A.z),
u = D.x * scale - A.x, v = D.y * scale - A.y. -/
def getUVOffset (ancestor descendant : TileCoord) : ℚ × ℚ × ℚ × ℚ :=
  let scale : ℚ := 1 / (2 : ℚ) ^ ((descendant.z : ℤ) - (ancestor.z : ℤ))
  ((descendant.x : ℚ) * scale - (ancestor.x : ℚ),
   (descendant.y : ℚ) * scale - (ancestor.y : ℚ),
   scale, scale)

/-- A tile: a coordinate paired with its (opaque) loader payload. -/
structure Tile where
  coord : TileCoord
  data : Nat
deriving DecidableEq, Repr

/-- Lifecycle events emitted on the enclosing layer. -/
inductive Event where
  | request (c : TileCoord)
  | add (t : Tile)
  | failure (c : TileCoord)
  | discard (c : TileCoord)
  | remove (t : Tile)
  | load
deriving DecidableEq, Repr

/-- A loader response: success with a payload (together with the viewport
adapter's in-view verdict at the moment the callback fires), or failure. -/
inductive Response where
  | success (payload : Nat) (inView : Bool)
  | failure
deriving DecidableEq, Repr

/-- First-match association-list lookup (models JavaScript Map.get; reachable
registries have unique keys). -/
def alookup {β : Type} : List (TileCoord × β) → TileCoord → Option β
  | [], _ => none
  | kv :: rest, c => if kv.1 = c then some kv.2 else alookup rest c

/-- Modelled from the spec: the TilePyramid state (src/src/layer/TilePyramid.js
is absent from the snapshot).  The store is split into the persistent region
and the volatile LRU (MRU first); `pending` maps normalized coords to the id
of the outstanding request ("the callback captures that specific pending
record"); `stale` maps normalized coords to the set of request ids whose
responses must be discarded (the repository test inspects it as a map of
sets, `pyramid.stale.get(hash).size`). -/
structure TilePyramid where
  cacheSize : Nat
  persistentLevels : Nat
  nextId : Nat
  persistent : List (TileCoord × Tile)
  lru : List (TileCoord × Tile)
  pending : List (TileCoord × Nat)
  stale : List (TileCoord × List Nat)
deriving DecidableEq, Repr

namespace TilePyramid

/-- A freshly constructed pyramid (defaults: cacheSize 256, persistentLevels 4). -/
def init (cacheSize persistentLevels : Nat) : TilePyramid :=
  ⟨cacheSize, persistentLevels, 0, [], [], [], []⟩

/-- Store lookup by (already normalized) key: persistent region first, then
the volatile LRU. -/
def storeLookup (s : TilePyramid) (n : TileCoord) : Option Tile :=
  match alookup s.persistent n with
  | some t => some t
  | none => alookup s.lru n

/-- Public lookup: consult the store by normalized coord. -/
def getTile (s : TilePyramid) (c : TileCoord) : Option Tile :=
  s.storeLookup c.normalize

/-- Does the pyramid hold a tile for this coord? -/
def has (s : TilePyramid) (c : TileCoord) : Bool :=
  (s.getTile c).isSome

/-- Is a fresh request outstanding for this coord? -/
def isPending (s : TilePyramid) (c : TileCoord) : Bool :=
  (alookup s.pending c.normalize).isSome

/-- Modelled from the spec: sum of powers of four used for the persistent
region capacity.  The repository test (src/test/layer/TilePyramid.js, the
getCapacity test) fixes it as (4^persistentLevels - 1)/3, i.e. levels
0..persistentLevels-1; division by 3 is exact. -/
def sumPowerOfFour (n : Nat) : Nat :=
  (4 ^ n - 1) / 3

/-- Modelled from the spec and the repository capacity test: total capacity =
volatile LRU size plus the persistent-region capacity. -/
def getCapacity (s : TilePyramid) : Nat :=
  s.cacheSize + sumPowerOfFour s.persistentLevels

/-- Insert a tile under its (normalized) coord.  Coords with z below the
persistent threshold are pinned; others go to the front of the LRU, evicting
the least-recently-used entry when over capacity.  Returns the evicted tile,
if any. -/
def storeInsert (s : TilePyramid) (t : Tile) : TilePyramid × Option Tile :=
  let n := t.coord
  if n.z < s.persistentLevels then
    ({ s with persistent := (n, t) :: s.persistent.filter (fun kv => kv.1 ≠ n) }, none)
  else
    let lru1 := (n, t) :: s.lru.filter (fun kv => kv.1 ≠ n)
    if lru1.length ≤ s.cacheSize then
      ({ s with lru := lru1 }, none)
    else
      ({ s with lru := lru1.dropLast }, (lru1.getLast?).map Prod.snd)

/-- Record one more stale response to discard for the given coord. -/
def staleAdd (st : List (TileCoord × List Nat)) (c : TileCoord) (id : Nat) :
    List (TileCoord × List Nat) :=
  match alookup st c with
  | some _ => st.map (fun kv => if kv.1 = c then (kv.1, id :: kv.2) else kv)
  | none => (c, [id]) :: st

/-- Discharge one stale response id for the given coord, dropping the entry
when its set becomes empty. -/
def staleRemove (st : List (TileCoord × List Nat)) (c : TileCoord) (id : Nat) :
    List (TileCoord × List Nat) :=
  (st.map (fun kv => if kv.1 = c then (kv.1, kv.2.erase id) else kv)).filter
    (fun kv => ¬ kv.2.isEmpty)

/-- Modelled from the spec: the request path.  Per input coord: normalize;
skip it if the store already has the normalized coord or a request is
pending for it (this also deduplicates within the batch); otherwise insert a
fresh pending record with a new id, emit `request`, and dispatch the loader
call.  Returns the new state, the emitted events, and the dispatched
(coord, id) loader calls. -/
def requestTiles (s : TilePyramid) (coords : List TileCoord) :
    TilePyramid × List Event × List (TileCoord × Nat) :=
  match coords with
  | [] => (s, [], [])
  | coord :: rest =>
    let n := coord.normalize
    if (s.storeLookup n).isSome || (alookup s.pending n).isSome then
      s.requestTiles rest
    else
      let s1 : TilePyramid :=
        { s with pending := (n, s.nextId) :: s.pending, nextId := s.nextId + 1 }
      let r := s1.requestTiles rest
      (r.1, Event.request n :: r.2.1, (n, s.nextId) :: r.2.2)

/-- Modelled from the spec: clear.  Every pending record is transferred to
the stale registry; the store is emptied, emitting `remove` for each stored
tile. -/
def clear (s : TilePyramid) : TilePyramid × List Event :=
  let stale1 := s.pending.foldl (fun st kv => staleAdd st kv.1 kv.2) s.stale
  ({ s with persistent := [], lru := [], pending := [], stale := stale1 },
   (s.persistent ++ s.lru).map (fun kv => Event.remove kv.2))

/-- Modelled from the spec: a loader callback arriving for the request with
the given id on the given (normalized) coord.  If the id is registered as
stale the response is discarded (decrement the stale set, emit `discard`,
leave the store alone, never contribute to `load`).  Otherwise, if the id is
the pending record for the coord, take the fresh path: remove the pending
record, then on success insert the tile when the viewport adapter reports it
in view (emitting `add`, plus `remove` for an evicted tile) or emit
`discard` when out of view; on failure emit `failure`; in every fresh case
emit `load` when the pending registry has drained.  A callback matching
neither registry is ignored. -/
def processResponse (s : TilePyramid) (c : TileCoord) (id : Nat) (r : Response) :
    TilePyramid × List Event :=
  if id ∈ ((alookup s.stale c).getD []) then
    ({ s with stale := staleRemove s.stale c id }, [Event.discard c])
  else
    match alookup s.pending c with
    | some pid =>
      if pid = id then
        let pending1 := s.pending.filter (fun kv => kv.1 ≠ c)
        let loadEv : List Event := if pending1.isEmpty then [Event.load] else []
        match r with
        | Response.success payload inView =>
          if inView then
            let ins := storeInsert { s with pending := pending1 } ⟨c, payload⟩
            (ins.1, Event.add ⟨c, payload⟩ ::
              ((ins.2.map Event.remove).toList ++ loadEv))
          else
            ({ s with pending := pending1 }, Event.discard c :: loadEv)
        | Response.failure =>
          ({ s with pending := pending1 }, Event.failure c :: loadEv)
      else (s, [])
    | none => (s, [])

/-- Run a list of loader callbacks (request id, response) against a pyramid,
all for the same normalized coord, accumulating the emitted events. -/
def processAll (s : TilePyramid) (c : TileCoord) :
    List (Nat × Response) → TilePyramid × List Event
  | [] => (s, [])
  | step :: rest =>
    let r1 := s.processResponse c step.1 step.2
    let r2 := r1.1.processAll c rest
    (r2.1, r1.2 ++ r2.2)

/-- One `requestTiles([c]); clear()` cycle. -/
def cycle (c : TileCoord) (s : TilePyramid) : TilePyramid :=
  ((s.requestTiles [c]).1.clear).1

/-- K `requestTiles([c]); clear()` cycles from a fresh pyramid. -/
def iterCycles (cacheSize persistentLevels : Nat) (c : TileCoord) : Nat → TilePyramid
  | 0 => init cacheSize persistentLevels
  | k + 1 => cycle c (iterCycles cacheSize persistentLevels c k)

/-- A stale registry holding a single coord with the given set of ids
(empty set means no entry), as produced by repeated single-coord cycles. -/
def staleEntry (n : TileCoord) (L : List Nat) : List (TileCoord × List Nat) :=
  if L.isEmpty then [] else [(n, L)]

/-- The ids 0..k-1 in descending order, the shape the stale set takes after k
request-and-clear cycles on one coord. -/
def idsDesc : Nat → List Nat
  | 0 => []
  | k + 1 => k :: idsDesc k

/-- Closest stored ancestor: walk offsets 1..z (i.e. z-1 down to 0) and
return the first ancestor tile held in the store. -/
def getClosestAncestorTile (s : TilePyramid) (n : TileCoord) : Option Tile :=
  (List.range n.z).findSome? (fun i => s.getTile (n.getAncestor (i + 1)))

/-- Deepest zoom present in the store (0 when empty); bounds the descendant
search depth ("the distance to the deepest present tile"). -/
def maxStoredZ (s : TilePyramid) : Nat :=
  ((s.persistent ++ s.lru).map (fun kv => kv.1.z)).foldl max 0

/-- Modelled from the spec: search for a complete covering of the footprint
of `c` by stored descendant tiles, up to the remaining fuel.  A stored tile
covers its own footprint; otherwise all four children must themselves be
covered, in the deterministic child order; if any branch has no covering the
whole search fails. -/
def coverDescendants (s : TilePyramid) : Nat → TileCoord → Option (List Tile)
  | 0, c => (s.getTile c).map (fun t => [t])
  | fuel + 1, c =>
    match s.getTile c with
    | some t => some [t]
    | none =>
      ((c.getDescendants 1).mapM (fun child => s.coverDescendants fuel child)).map
        List.flatten

/-- Modelled from the spec: the minimal covering set of stored descendants of
a coord, searched down to the deepest stored level; none if no complete
covering exists. -/
def getDescendantTiles (s : TilePyramid) (n : TileCoord) : Option (List Tile) :=
  s.coverDescendants (s.maxStoredZ - n.z) n

/-- A renderable substitute: the tile to draw plus the UV sub-rectangle of it
to sample. -/
structure Renderable where
  tile : Tile
  uvOffset : ℚ × ℚ × ℚ × ℚ
deriving DecidableEq, Repr

/-- Modelled from the spec: the LOD substitution oracle.  Resolution order:
the exact tile if stored (full UV rectangle); else a sub-sampled renderable
from the closest stored ancestor; else one full-UV renderable per tile of a
covering descendant set; else none. -/
def getAvailableLOD (s : TilePyramid) (c : TileCoord) : Option (List Renderable) :=
  let n := c.normalize
  match s.getTile n with
  | some t => some [⟨t, (0, 0, 1, 1)⟩]
  | none =>
    match s.getClosestAncestorTile n with
    | some ta => some [⟨ta, getUVOffset ta.coord n⟩]
    | none =>
      (s.getDescendantTiles n).map (fun ts => ts.map (fun t => ⟨t, (0, 0, 1, 1)⟩))

end TilePyramid

/-- Integer tile bounds of a viewport region, edges inclusive (the values
produced by Viewport.getTileBounds are integers by construction). -/
structure TileBounds where
  left : Int
  right : Int
  bottom : Int
  top : Int
deriving DecidableEq, Repr

/-- A viewport: lower-left corner and extent in plot coordinates.  Embedded
from src/src/plot/Viewport.js with plot coordinates as exact rationals. -/
structure Viewport where
  x : ℚ
  y : ℚ
  width : ℚ
  height : ℚ
deriving DecidableEq, Repr

namespace Viewport

/-- Embeds Viewport.getTileBounds: the inclusive tile-index bounds of the
viewport at the given zoom (floor of near edge, ceil of far edge minus one). -/
def getTileBounds (v : Viewport) (tileZoom : Nat) : TileBounds :=
  let tileSpan : ℚ := 1 / (2 : ℚ) ^ tileZoom
  ⟨⌊v.x / tileSpan⌋, ⌈(v.x + v.width) / tileSpan⌉ - 1,
   ⌊v.y / tileSpan⌋, ⌈(v.y + v.height) / tileSpan⌉ - 1⟩

/-- Embeds the private getVisibleTileBounds of src/src/plot/Viewport.js.
With wraparound the layer bounds are horizontally unbounded (the JavaScript
source uses plus and minus Infinity), so the overlap test reduces to the
vertical comparison and the horizontal bounds are not clamped; without
wraparound both axes are tested and clamped. -/
def getVisibleTileBounds (v : Viewport) (tileZoom : Nat) (wraparound : Bool) :
    Option TileBounds :=
  let bounds := v.getTileBounds tileZoom
  let dim : Int := (2 : Int) ^ tileZoom
  let lo : Int := 0
  let hi : Int := dim - 1
  if wraparound then
    if bounds.bottom > hi ∨ bounds.top < lo then none
    else some ⟨bounds.left, bounds.right, max lo bounds.bottom, min hi bounds.top⟩
  else
    if bounds.left > hi ∨ bounds.right < lo ∨ bounds.bottom > hi ∨ bounds.top < lo then
      none
    else
      some ⟨max lo bounds.left, min hi bounds.right, max lo bounds.bottom,
        min hi bounds.top⟩

end Viewport

/-- Embeds the private isWithinRange of src/src/plot/Viewport.js: given the
integer range [mn, mx], a power-of-two m and an integer n, decide whether n
or some shift of n by a multiple of m lies within the range, computed as in
the source via the ceiling of the gap divided by m. -/
def isWithinRange (mn mx m n : Int) : Bool :=
  if mn ≤ n ∧ n ≤ mx then
    true
  else if mn > n then
    decide (n + ⌈((mn - n : Int) : ℚ) / (m : ℚ)⌉ * m ≤ mx)
  else
    decide (mn ≤ n - ⌈((n - mx : Int) : ℚ) / (m : ℚ)⌉ * m)

/-- Embeds Viewport.isInView: compute the visible tile bounds for the coord's
zoom, and test each axis with isWithinRange against the zoom's dimension. -/
def Viewport.isInView (v : Viewport) (coord : TileCoord) (wraparound : Bool) : Bool :=
  match v.getVisibleTileBounds coord.z wraparound with
  | none => false
  | some b =>
    let dim : Int := (2 : Int) ^ coord.z
    isWithinRange b.left b.right dim coord.x && isWithinRange b.bottom b.top dim coord.y

section RangeLemmas

/-- isWithinRange decides membership of the residue class of n modulo m in
the integer interval [mn, mx]. -/
theorem isWithinRange_iff_exists (mn mx m n : Int) (hm : 0 < m) :
    isWithinRange mn mx m n = true ↔ ∃ j : Int, mn ≤ n + j * m ∧ n + j * m ≤ mx := by
  have hmQ : (0 : ℚ) < (m : ℚ) := by exact_mod_cast hm
  unfold isWithinRange
  split_ifs with h1 h2
  · exact iff_of_true rfl ⟨0, by simpa using h1.1, by simpa using h1.2⟩
  · simp only [decide_eq_true_eq]
    constructor
    · intro hk
      refine ⟨⌈((mn - n : Int) : ℚ) / (m : ℚ)⌉, ?_, hk⟩
      have hle := Int.le_ceil (((mn - n : Int) : ℚ) / (m : ℚ))
      rw [div_le_iff₀ hmQ] at hle
      have hle2 : (mn - n : Int) ≤ ⌈((mn - n : Int) : ℚ) / (m : ℚ)⌉ * m := by
        exact_mod_cast hle
      linarith
    · rintro ⟨j, hj1, hj2⟩
      have hkj : ⌈((mn - n : Int) : ℚ) / (m : ℚ)⌉ ≤ j := by
        rw [Int.ceil_le, div_le_iff₀ hmQ]
        have : (mn - n : Int) ≤ j * m := by linarith
        exact_mod_cast this
      have := mul_le_mul_of_nonneg_right hkj hm.le
      linarith
  · simp only [decide_eq_true_eq]
    have hmn : mn ≤ n := le_of_not_lt h2
    have hmx : mx < n := by
      by_contra hc
      exact h1 ⟨hmn, le_of_not_lt hc⟩
    constructor
    · intro hk
      refine ⟨-⌈((n - mx : Int) : ℚ) / (m : ℚ)⌉, by linarith [hk], ?_⟩
      have hle := Int.le_ceil (((n - mx : Int) : ℚ) / (m : ℚ))
      rw [div_le_iff₀ hmQ] at hle
      have hle2 : (n - mx : Int) ≤ ⌈((n - mx : Int) : ℚ) / (m : ℚ)⌉ * m := by
        exact_mod_cast hle
      have : n + -⌈((n - mx : Int) : ℚ) / (m : ℚ)⌉ * m
          = n - ⌈((n - mx : Int) : ℚ) / (m : ℚ)⌉ * m := by ring
      rw [this]
      linarith
    · rintro ⟨j, hj1, hj2⟩
      have hkj : ⌈((n - mx : Int) : ℚ) / (m : ℚ)⌉ ≤ -j := by
        rw [Int.ceil_le, div_le_iff₀ hmQ]
        have : (n - mx : Int) ≤ -j * m := by linarith
        exact_mod_cast this
      have := mul_le_mul_of_nonneg_right hkj hm.le
      linarith

/-- Shifting the probe by a multiple of m leaves isWithinRange unchanged. -/
theorem isWithinRange_add_mul (mn mx m n k : Int) (hm : 0 < m) :
    isWithinRange mn mx m (n + k * m) = isWithinRange mn mx m n := by
  rw [Bool.eq_iff_iff, isWithinRange_iff_exists mn mx m _ hm,
    isWithinRange_iff_exists mn mx m n hm]
  constructor
  · rintro ⟨j, hj1, hj2⟩
    refine ⟨k + j, ?_, ?_⟩
    · have : n + (k + j) * m = n + k * m + j * m := by ring
      rw [this]; exact hj1
    · have : n + (k + j) * m = n + k * m + j * m := by ring
      rw [this]; exact hj2
  · rintro ⟨j, hj1, hj2⟩
    refine ⟨j - k, ?_, ?_⟩
    · have : n + k * m + (j - k) * m = n + j * m := by ring
      rw [this]; exact hj1
    · have : n + k * m + (j - k) * m = n + j * m := by ring
      rw [this]; exact hj2

end RangeLemmas

/-- C10: when wraparound is true, Viewport.isInView is invariant under
replacing coord.x by coord.x plus any integer multiple of 2^z: the in-view
classification of an unnormalized coord agrees with that of every horizontal
wrap image of it, so the check needs no pre-normalized coordinate. -/
theorem c10_isInView_wrap_invariant (v : Viewport) (z : Nat) (x y k : Int) :
    v.isInView ⟨z, x + k * (2 : Int) ^ z, y⟩ true = v.isInView ⟨z, x, y⟩ true := by
  unfold Viewport.isInView
  cases h : v.getVisibleTileBounds z true with
  | none => rfl
  | some b =>
    simp only [Option.some.injEq]
    show (isWithinRange b.left b.right ((2 : Int) ^ z) (x + k * (2 : Int) ^ z) &&
        isWithinRange b.bottom b.top ((2 : Int) ^ z) y) = _
    rw [isWithinRange_add_mul b.left b.right ((2 : Int) ^ z) x k (by positivity)]

/-- Any member of the direct-descendant list has the original coord as its
direct ancestor. -/
theorem getAncestor_of_mem_getDescendants (c d : TileCoord)
    (hd : d ∈ c.getDescendants 1) : d.getAncestor 1 = c := by
  obtain ⟨zc, xc, yc⟩ := c
  unfold TileCoord.getDescendants at hd
  rcases List.mem_flatMap.mp hd with ⟨dx, hdx, hin⟩
  rcases List.mem_map.mp hin with ⟨dy, hdy, hmk⟩
  rw [List.mem_range] at hdx hdy
  subst hmk
  unfold TileCoord.getAncestor
  simp only [TileCoord.mk.injEq]
  refine ⟨by omega, ?_, ?_⟩
  · rw [Int.fdiv_eq_ediv _ (by norm_num)]
    simp only [pow_one]
    have hdx2 : (dx : Int) < 2 := by exact_mod_cast hdx
    omega
  · rw [Int.fdiv_eq_ediv _ (by norm_num)]
    simp only [pow_one]
    have hdy2 : (dy : Int) < 2 := by exact_mod_cast hdy
    omega

/-- C9: for every coord c and every index i into getDescendants(c), the
direct ancestor of getDescendants(c)[i] is c itself. -/
theorem c9_getAncestor_getDescendants (c : TileCoord) (i : Nat)
    (h : i < (c.getDescendants 1).length) :
    ((c.getDescendants 1).get ⟨i, h⟩).getAncestor 1 = c :=
  getAncestor_of_mem_getDescendants c _ ((c.getDescendants 1).get_mem i h)

/-- Witness for C9 at the concrete coord (1, 2, 3) and index 2. -/
theorem c9_witness :
    2 < ((⟨1, 2, 3⟩ : TileCoord).getDescendants 1).length ∧
      (((⟨1, 2, 3⟩ : TileCoord).getDescendants 1).get
          ⟨2, by decide⟩).getAncestor 1 = ⟨1, 2, 3⟩ :=
  ⟨by decide, c9_getAncestor_getDescendants ⟨1, 2, 3⟩ 2 (by decide)⟩

/-- C8: the ancestor-for-descendant UV rectangle is
(D.x·s − A.x, D.y·s − A.y, s, s) with s = 1/2^(D.z − A.z), and with only
(0,0,0) stored, getAvailableLOD((2,3,1)) yields a renderable whose tile is
(0,0,0) and whose uvOffset is (0.75, 0.25, 0.25, 0.25). -/
theorem c8_uv_offset (A D : TileCoord) :
    getUVOffset A D =
      ((D.x : ℚ) * (1 / (2 : ℚ) ^ ((D.z : ℤ) - (A.z : ℤ))) - (A.x : ℚ),
       (D.y : ℚ) * (1 / (2 : ℚ) ^ ((D.z : ℤ) - (A.z : ℤ))) - (A.y : ℚ),
       1 / (2 : ℚ) ^ ((D.z : ℤ) - (A.z : ℤ)),
       1 / (2 : ℚ) ^ ((D.z : ℤ) - (A.z : ℤ))) ∧
    TilePyramid.getAvailableLOD
        ((TilePyramid.storeInsert (TilePyramid.init 256 4) ⟨⟨0, 0, 0⟩, 42⟩).1)
        ⟨2, 3, 1⟩ =
      some [⟨⟨⟨0, 0, 0⟩, 42⟩, (3 / 4, 1 / 4, 1 / 4, 1 / 4)⟩] := by
  refine ⟨rfl, ?_⟩
  have h1 : TilePyramid.getAvailableLOD
      ((TilePyramid.storeInsert (TilePyramid.init 256 4) ⟨⟨0, 0, 0⟩, 42⟩).1)
      ⟨2, 3, 1⟩ =
      some [⟨⟨⟨0, 0, 0⟩, 42⟩, getUVOffset ⟨0, 0, 0⟩ ⟨2, 3, 1⟩⟩] := rfl
  have h2 : getUVOffset ⟨0, 0, 0⟩ ⟨2, 3, 1⟩ =
      ((3 : ℚ) / 4, (1 : ℚ) / 4, (1 : ℚ) / 4, (1 : ℚ) / 4) := by
    unfold getUVOffset
    norm_num
  rw [h1, h2]

/-- The sum-of-powers-of-four closed form: 4^n is 1 modulo 3. -/
theorem four_pow_three_mul_add_one (n : Nat) : ∃ t, 4 ^ n = 3 * t + 1 := by
  induction n with
  | zero => exact ⟨0, rfl⟩
  | succ k ih =>
    obtain ⟨t, ht⟩ := ih
    exact ⟨4 * t + 1, by rw [pow_succ]; omega⟩

/-- sumPowerOfFour satisfies the geometric-series recurrence. -/
theorem sumPowerOfFour_succ (n : Nat) :
    TilePyramid.sumPowerOfFour (n + 1) = TilePyramid.sumPowerOfFour n + 4 ^ n := by
  obtain ⟨t, ht⟩ := four_pow_three_mul_add_one n
  unfold TilePyramid.sumPowerOfFour
  rw [pow_succ]
  omega

/-- sumPowerOfFour n is the sum of 4^z over z = 0..n-1. -/
theorem sumPowerOfFour_eq_sum (n : Nat) :
    TilePyramid.sumPowerOfFour n = ∑ z ∈ Finset.range n, 4 ^ z := by
  induction n with
  | zero => rfl
  | succ k ih => rw [sumPowerOfFour_succ, Finset.sum_range_succ, ih]

/-- C5 counterexample: with the default configuration (cacheSize 256,
persistentLevels 4) the capacity is 341, not
cacheSize + (4^(persistentLevels+1) − 1)/3 = 597 as the claim states. -/
theorem c5_counterexample :
    TilePyramid.getCapacity (TilePyramid.init 256 4) ≠
      (TilePyramid.init 256 4).cacheSize +
        (4 ^ ((TilePyramid.init 256 4).persistentLevels + 1) - 1) / 3 := by
  decide

/-- C5 (amended): getCapacity() always returns
cacheSize + (4^persistentLevels − 1)/3, the volatile LRU size plus the
persistent-region capacity Σ_{z=0..persistentLevels−1} 4^z. -/
theorem c5_capacity (s : TilePyramid) :
    TilePyramid.getCapacity s = s.cacheSize + ∑ z ∈ Finset.range s.persistentLevels, 4 ^ z := by
  unfold TilePyramid.getCapacity
  rw [sumPowerOfFour_eq_sum]

section AssocLemmas

/-- Filtering out a key makes later lookups of that key fail. -/
theorem alookup_filter_ne_self {β : Type} (l : List (TileCoord × β)) (c : TileCoord) :
    alookup (l.filter (fun kv => kv.1 ≠ c)) c = none := by
  induction l with
  | nil => rfl
  | cons kv rest ih =>
    by_cases h : kv.1 = c
    · simpa [List.filter, h] using ih
    · simpa [List.filter, h, alookup] using ih

/-- A successful lookup exhibits a member of the association list. -/
theorem alookup_mem {β : Type} (l : List (TileCoord × β)) (c : TileCoord) (v : β)
    (h : alookup l c = some v) : (c, v) ∈ l := by
  induction l with
  | nil => simp [alookup] at h
  | cons kv rest ih =>
    unfold alookup at h
    by_cases hk : kv.1 = c
    · rw [if_pos hk] at h
      obtain ⟨k1, k2⟩ := kv
      obtain rfl := hk
      obtain rfl : k2 = v := by simpa using h
      exact List.mem_cons_self _ _
    · rw [if_neg hk] at h
      exact List.mem_cons_of_mem _ (ih h)

/-- A lookup that fails means the key heads no entry. -/
theorem alookup_eq_none_forall {β : Type} (l : List (TileCoord × β)) (c : TileCoord)
    (h : alookup l c = none) : ∀ kv ∈ l, kv.1 ≠ c := by
  induction l with
  | nil => simp
  | cons kv rest ih =>
    unfold alookup at h
    by_cases hk : kv.1 = c
    · rw [if_pos hk] at h
      simp at h
    · rw [if_neg hk] at h
      intro kv2 hm
      rcases List.mem_cons.mp hm with rfl | hm2
      · exact hk
      · exact ih h kv2 hm2

end AssocLemmas

namespace TilePyramid

/-- storeInsert never touches the pending registry. -/
theorem storeInsert_pending (s : TilePyramid) (t : Tile) :
    (s.storeInsert t).1.pending = s.pending := by
  simp only [storeInsert]
  split_ifs <;> rfl

/-- storeInsert never touches the stale registry. -/
theorem storeInsert_stale (s : TilePyramid) (t : Tile) :
    (s.storeInsert t).1.stale = s.stale := by
  simp only [storeInsert]
  split_ifs <;> rfl

/-- After storeInsert the inserted tile's coord is present in the store
(provided the volatile cache can hold at least one entry). -/
theorem storeInsert_lookup_isSome (s : TilePyramid) (t : Tile) (hcs : 1 ≤ s.cacheSize) :
    ((s.storeInsert t).1.storeLookup t.coord).isSome = true := by
  simp only [storeInsert]
  by_cases hz : t.coord.z < s.persistentLevels
  · rw [if_pos hz]
    unfold storeLookup
    simp [alookup]
  · rw [if_neg hz]
    cases hl : s.lru.filter (fun kv => kv.1 ≠ t.coord) with
    | nil =>
      have hlen : [(t.coord, t)].length ≤ s.cacheSize := by simpa using hcs
      rw [if_pos hlen]
      unfold storeLookup
      cases hp : alookup s.persistent t.coord <;> simp [alookup, hp]
    | cons kv rest =>
      by_cases hlen : ((t.coord, t) :: kv :: rest).length ≤ s.cacheSize
      · rw [if_pos hlen]
        unfold storeLookup
        cases hp : alookup s.persistent t.coord <;> simp [alookup, hp]
      · rw [if_neg hlen]
        unfold storeLookup
        cases hp : alookup s.persistent t.coord <;>
          simp [alookup, hp, List.dropLast]

end TilePyramid

namespace TilePyramid

/-- A stale callback is discarded: the id is removed from the stale registry
and only a `discard` event is emitted. -/
theorem processResponse_stale (s : TilePyramid) (c : TileCoord) (id : Nat)
    (r : Response) (hst : id ∈ (alookup s.stale c).getD []) :
    s.processResponse c id r =
      ({ s with stale := staleRemove s.stale c id }, [Event.discard c]) := by
  simp [processResponse, hst]

/-- A callback matching no registry is ignored. -/
theorem processResponse_ignored_none (s : TilePyramid) (c : TileCoord) (id : Nat)
    (r : Response) (hst : id ∉ (alookup s.stale c).getD [])
    (hp : alookup s.pending c = none) :
    s.processResponse c id r = (s, []) := by
  simp [processResponse, hst, hp]

/-- A callback whose id does not match the current pending record is ignored. -/
theorem processResponse_ignored_ne (s : TilePyramid) (c : TileCoord) (id pid : Nat)
    (r : Response) (hst : id ∉ (alookup s.stale c).getD [])
    (hp : alookup s.pending c = some pid) (hpid : pid ≠ id) :
    s.processResponse c id r = (s, []) := by
  simp [processResponse, hst, hp, hpid]

/-- The fresh in-view success path: remove the pending record, insert into
the store, emit `add` (plus `remove` for any evicted tile), and `load` when
the registry drained. -/
theorem processResponse_fresh_inview (s : TilePyramid) (c : TileCoord) (id payload : Nat)
    (hst : id ∉ (alookup s.stale c).getD []) (hp : alookup s.pending c = some id) :
    s.processResponse c id (Response.success payload true) =
      ((({ s with pending := s.pending.filter (fun kv => kv.1 ≠ c) } :
            TilePyramid).storeInsert ⟨c, payload⟩).1,
        Event.add ⟨c, payload⟩ ::
          ((((({ s with pending := s.pending.filter (fun kv => kv.1 ≠ c) } :
              TilePyramid).storeInsert ⟨c, payload⟩).2).map Event.remove).toList ++
            (if (s.pending.filter (fun kv => kv.1 ≠ c)).isEmpty then [Event.load]
             else []))) := by
  simp [processResponse, hst, hp]

/-- The fresh out-of-view success path: remove the pending record, emit
`discard` (plus `load` when drained); the store is untouched. -/
theorem processResponse_fresh_outview (s : TilePyramid) (c : TileCoord) (id payload : Nat)
    (hst : id ∉ (alookup s.stale c).getD []) (hp : alookup s.pending c = some id) :
    s.processResponse c id (Response.success payload false) =
      ({ s with pending := s.pending.filter (fun kv => kv.1 ≠ c) },
        Event.discard c ::
          (if (s.pending.filter (fun kv => kv.1 ≠ c)).isEmpty then [Event.load]
           else [])) := by
  simp [processResponse, hst, hp]

/-- The fresh failure path: remove the pending record, emit `failure` (plus
`load` when drained); the store is untouched. -/
theorem processResponse_fresh_failure (s : TilePyramid) (c : TileCoord) (id : Nat)
    (hst : id ∉ (alookup s.stale c).getD []) (hp : alookup s.pending c = some id) :
    s.processResponse c id Response.failure =
      ({ s with pending := s.pending.filter (fun kv => kv.1 ≠ c) },
        Event.failure c ::
          (if (s.pending.filter (fun kv => kv.1 ≠ c)).isEmpty then [Event.load]
           else [])) := by
  simp [processResponse, hst, hp]

/-- `load` is never among the eviction `remove` events. -/
theorem load_not_mem_remove_toList (o : Option Tile) :
    Event.load ∉ (o.map Event.remove).toList := by
  cases o <;> simp

/-- The request path never emits `load`. -/
theorem requestTiles_no_load (coords : List TileCoord) (s : TilePyramid) :
    Event.load ∉ (s.requestTiles coords).2.1 := by
  induction coords generalizing s with
  | nil => simp [requestTiles]
  | cons coord rest ih =>
    simp only [requestTiles]
    split
    · exact ih s
    · simp only [List.mem_cons, not_or]
      exact ⟨by simp, ih _⟩

/-- clear never emits `load` (it emits only `remove` events). -/
theorem clear_no_load (s : TilePyramid) : Event.load ∉ s.clear.2 := by
  simp [clear]

/-- processResponse emits `load` exactly when it takes the fresh path (the id
is not registered stale and matches the pending record) and the pending
registry drains. -/
theorem processResponse_load_iff (s : TilePyramid) (c : TileCoord) (id : Nat)
    (r : Response) :
    Event.load ∈ (s.processResponse c id r).2 ↔
      (id ∉ (alookup s.stale c).getD [] ∧ alookup s.pending c = some id ∧
        (s.processResponse c id r).1.pending = []) := by
  by_cases hst : id ∈ (alookup s.stale c).getD []
  · rw [processResponse_stale s c id r hst]
    simp [hst]
  · cases hp : alookup s.pending c with
    | none =>
      rw [processResponse_ignored_none s c id r hst hp]
      simp [hp]
    | some pid =>
      rcases eq_or_ne pid id with rfl | hpid
      · cases r with
        | success payload inView =>
          cases inView with
          | false =>
            rw [processResponse_fresh_outview s c pid payload hst hp]
            simp only [List.mem_cons, hst, hp, not_false_iff, true_and,
              Option.some.injEq, eq_self_iff_true]
            split <;> simp_all [List.isEmpty_iff] <;> (rename_i hflt; exact hflt)
          | true =>
            rw [processResponse_fresh_inview s c pid payload hst hp]
            simp only [List.mem_cons, List.mem_append, storeInsert_pending, hst,
              not_false_iff, true_and, Option.some.injEq, eq_self_iff_true]
            have hnr := load_not_mem_remove_toList
              ((({ s with pending := s.pending.filter (fun kv => kv.1 ≠ c) } :
                TilePyramid).storeInsert ⟨c, payload⟩).2)
            split <;> simp_all [List.isEmpty_iff] <;> (rename_i hflt; exact hflt)
        | failure =>
          rw [processResponse_fresh_failure s c pid hst hp]
          simp only [List.mem_cons, hst, hp, not_false_iff, true_and,
            Option.some.injEq, eq_self_iff_true]
          split <;> simp_all [List.isEmpty_iff] <;> (rename_i hflt; exact hflt)
      · rw [processResponse_ignored_ne s c id pid r hst hp hpid]
        simp [hp, hpid]

/-- processResponse emits at most one `load` event in a single step. -/
theorem processResponse_load_count (s : TilePyramid) (c : TileCoord) (id : Nat)
    (r : Response) :
    (s.processResponse c id r).2.count Event.load ≤ 1 := by
  by_cases hst : id ∈ (alookup s.stale c).getD []
  · rw [processResponse_stale s c id r hst]
    simp
  · cases hp : alookup s.pending c with
    | none =>
      rw [processResponse_ignored_none s c id r hst hp]
      simp
    | some pid =>
      rcases eq_or_ne pid id with rfl | hpid
      · cases r with
        | success payload inView =>
          cases inView with
          | false =>
            rw [processResponse_fresh_outview s c pid payload hst hp]
            simp only [List.count_cons]
            split <;> simp
          | true =>
            rw [processResponse_fresh_inview s c pid payload hst hp]
            simp only [List.count_cons, List.count_append]
            have hnr := load_not_mem_remove_toList
              ((({ s with pending := s.pending.filter (fun kv => kv.1 ≠ c) } :
                TilePyramid).storeInsert ⟨c, payload⟩).2)
            rw [List.count_eq_zero.mpr hnr]
            split <;> simp
        | failure =>
          rw [processResponse_fresh_failure s c pid hst hp]
          simp only [List.count_cons]
          split <;> simp
      · rw [processResponse_ignored_ne s c id pid r hst hp hpid]
        simp

end TilePyramid

/-- C3: `load` fires exactly when the pending registry drains through a
non-stale completion: it is never emitted by requestTiles or clear; a
callback emits it iff it takes the fresh path (its id is not stale and
matches the pending record, so the pre-state registry is non-empty) and the
post-state pending registry is empty; and a single completion emits at most
one `load`, so each drain fires it at most once and all-stale groups never
fire it. -/
theorem c3_load_on_drain (s : TilePyramid) (coords : List TileCoord)
    (c : TileCoord) (id : Nat) (r : Response) :
    Event.load ∉ (s.requestTiles coords).2.1 ∧
    Event.load ∉ s.clear.2 ∧
    (Event.load ∈ (s.processResponse c id r).2 ↔
      (id ∉ (alookup s.stale c).getD [] ∧ alookup s.pending c = some id ∧
        (s.processResponse c id r).1.pending = [])) ∧
    (s.processResponse c id r).2.count Event.load ≤ 1 :=
  ⟨TilePyramid.requestTiles_no_load coords s, TilePyramid.clear_no_load s,
    TilePyramid.processResponse_load_iff s c id r,
    TilePyramid.processResponse_load_count s c id r⟩

/-- C4: for a fresh loader success for coord c (normalized, with an id-matched
pending record and a cache that can hold at least one tile): when the
viewport adapter reports c in view, the pending record is removed, the tile
is inserted into the store (so has(c) holds afterwards) and an `add` event is
emitted; when c is out of view, the pending record is removed, a `discard`
event is emitted, and the store is not modified (no `add` is emitted). -/
theorem c4_fresh_success (s : TilePyramid) (c : TileCoord) (id payload : Nat)
    (hn : c.normalize = c)
    (hst : id ∉ (alookup s.stale c).getD [])
    (hp : alookup s.pending c = some id)
    (hcs : 1 ≤ s.cacheSize) :
    ((s.processResponse c id (Response.success payload true)).1.has c = true ∧
     alookup (s.processResponse c id (Response.success payload true)).1.pending c = none ∧
     Event.add ⟨c, payload⟩ ∈ (s.processResponse c id (Response.success payload true)).2) ∧
    (alookup (s.processResponse c id (Response.success payload false)).1.pending c = none ∧
     Event.discard c ∈ (s.processResponse c id (Response.success payload false)).2 ∧
     (s.processResponse c id (Response.success payload false)).1.persistent = s.persistent ∧
     (s.processResponse c id (Response.success payload false)).1.lru = s.lru ∧
     ∀ t : Tile, Event.add t ∉ (s.processResponse c id (Response.success payload false)).2) := by
  rw [TilePyramid.processResponse_fresh_inview s c id payload hst hp,
    TilePyramid.processResponse_fresh_outview s c id payload hst hp]
  refine ⟨⟨?_, ?_, ?_⟩, ?_, ?_, rfl, rfl, ?_⟩
  · unfold TilePyramid.has TilePyramid.getTile
    rw [hn]
    exact TilePyramid.storeInsert_lookup_isSome
      { s with pending := s.pending.filter (fun kv => kv.1 ≠ c) } ⟨c, payload⟩ hcs
  · rw [TilePyramid.storeInsert_pending]
    exact alookup_filter_ne_self s.pending c
  · exact List.mem_cons_self _ _
  · exact alookup_filter_ne_self s.pending c
  · exact List.mem_cons_self _ _
  · intro t
    simp only [List.mem_cons, not_or]
    refine ⟨by simp, ?_⟩
    split <;> simp

/-- Witness for C4 at a concrete pyramid with one pending record for (0,0,0). -/
theorem c4_witness :
    ((⟨0, 0, 0⟩ : TileCoord).normalize = ⟨0, 0, 0⟩ ∧
     7 ∉ (alookup (⟨256, 4, 8, [], [], [(⟨0, 0, 0⟩, 7)], []⟩ : TilePyramid).stale
        ⟨0, 0, 0⟩).getD [] ∧
     alookup (⟨256, 4, 8, [], [], [(⟨0, 0, 0⟩, 7)], []⟩ : TilePyramid).pending
        ⟨0, 0, 0⟩ = some 7 ∧
     1 ≤ (⟨256, 4, 8, [], [], [(⟨0, 0, 0⟩, 7)], []⟩ : TilePyramid).cacheSize) ∧
    ((⟨256, 4, 8, [], [], [(⟨0, 0, 0⟩, 7)], []⟩ : TilePyramid).processResponse
        ⟨0, 0, 0⟩ 7 (Response.success 5 true)).1.has ⟨0, 0, 0⟩ = true := by
  refine ⟨⟨by decide, by decide, by decide, by decide⟩, ?_⟩
  exact (c4_fresh_success ⟨256, 4, 8, [], [], [(⟨0, 0, 0⟩, 7)], []⟩ ⟨0, 0, 0⟩ 7 5
    (by decide) (by decide) (by decide) (by decide)).1.1

namespace TilePyramid

/-- If the store or the pending registry already knows the normalized coord,
requestTiles dispatches no loader call for it. -/
theorem requestTiles_count_known (coords : List TileCoord) (s : TilePyramid)
    (n : TileCoord)
    (h : (s.storeLookup n).isSome ∨ (alookup s.pending n).isSome) :
    (s.requestTiles coords).2.2.countP (fun d => decide (d.1 = n)) = 0 := by
  induction coords generalizing s with
  | nil => simp [requestTiles]
  | cons coord rest ih =>
    simp only [requestTiles]
    split
    · exact ih s h
    · rename_i hc
      have hne : coord.normalize ≠ n := by
        intro he
        rw [he] at hc
        rcases h with h1 | h1 <;> simp [h1] at hc
      simp only [List.countP_cons, hne, decide_eq_true_eq, if_false]
      have hh : (({ s with pending := (coord.normalize, s.nextId) :: s.pending, nextId := s.nextId + 1 } : TilePyramid).storeLookup n).isSome ∨ (alookup ({ s with pending := (coord.normalize, s.nextId) :: s.pending, nextId := s.nextId + 1 } : TilePyramid).pending n).isSome := by
        rcases h with h1 | h1
        · exact Or.inl h1
        · refine Or.inr ?_
          simpa [alookup, hne] using h1
      simpa using ih _ hh

/-- If no coord of the batch normalizes to n, no loader call for n is made. -/
theorem requestTiles_count_notmem (coords : List TileCoord) (s : TilePyramid)
    (n : TileCoord) (h : ∀ c' ∈ coords, c'.normalize ≠ n) :
    (s.requestTiles coords).2.2.countP (fun d => decide (d.1 = n)) = 0 := by
  induction coords generalizing s with
  | nil => simp [requestTiles]
  | cons coord rest ih =>
    have hne : coord.normalize ≠ n := h coord (List.mem_cons_self _ _)
    have hrest : ∀ c' ∈ rest, c'.normalize ≠ n :=
      fun c' hm => h c' (List.mem_cons_of_mem _ hm)
    simp only [requestTiles]
    split
    · exact ih s hrest
    · simp only [List.countP_cons, hne, decide_eq_true_eq, if_false]
      simpa using ih _ hrest

/-- If the normalized coord is unknown and some batch element normalizes to
it, exactly one loader call for it is dispatched. -/
theorem requestTiles_count_new (coords : List TileCoord) (s : TilePyramid)
    (n : TileCoord)
    (hs : (s.storeLookup n).isSome = false)
    (hp : (alookup s.pending n).isSome = false)
    (hmem : ∃ c' ∈ coords, c'.normalize = n) :
    (s.requestTiles coords).2.2.countP (fun d => decide (d.1 = n)) = 1 := by
  induction coords generalizing s with
  | nil => simp at hmem
  | cons coord rest ih =>
    by_cases hcn : coord.normalize = n
    · subst hcn
      simp only [requestTiles]
      rw [if_neg (by simp [hs, hp])]
      rw [List.countP_cons_of_pos _ _ (by simp)]
      have hcnt := requestTiles_count_known rest ({ s with pending := (coord.normalize, s.nextId) :: s.pending, nextId := s.nextId + 1 } : TilePyramid) coord.normalize (Or.inr (by simp [alookup]))
      omega
    · have hmem' : ∃ c' ∈ rest, c'.normalize = n := by
        rcases hmem with ⟨c', hc', he⟩
        rcases List.mem_cons.mp hc' with rfl | hm
        · exact absurd he hcn
        · exact ⟨c', hm, he⟩
      simp only [requestTiles]
      split
      · exact ih s hs hp hmem'
      · rw [List.countP_cons_of_neg _ _ (by simp [hcn])]
        have hp2 : (alookup ({ s with pending := (coord.normalize, s.nextId) :: s.pending, nextId := s.nextId + 1 } : TilePyramid).pending n).isSome = false := by
          simpa [alookup, hcn] using hp
        exact ih _ hs hp2 hmem'

end TilePyramid

/-- C6: the input batch is normalized and deduplicated by hash before
dispatch.  Horizontal wraps by multiples of 2^z normalize identically; any
batch dispatches at most one loader call per normalized coord; and when the
normalized coord is neither stored nor pending and occurs in the batch
(possibly as duplicates or wrap images), exactly one loader call is made in
total. -/
theorem c6_normalize_dedup (s : TilePyramid) (cs : List TileCoord) (c : TileCoord)
    (z : Nat) (x y k : Int) :
    (TileCoord.normalize ⟨z, x + k * (2 : Int) ^ z, y⟩ = TileCoord.normalize ⟨z, x, y⟩) ∧
    ((s.requestTiles cs).2.2.countP (fun d => decide (d.1 = c.normalize)) ≤ 1) ∧
    ((s.storeLookup c.normalize).isSome = false →
      (alookup s.pending c.normalize).isSome = false →
      (∃ c' ∈ cs, c'.normalize = c.normalize) →
      (s.requestTiles cs).2.2.countP (fun d => decide (d.1 = c.normalize)) = 1) := by
  refine ⟨?_, ?_, ?_⟩
  · unfold TileCoord.normalize
    simp only [TileCoord.mk.injEq]
    refine ⟨trivial, ?_, trivial⟩
    exact Int.add_mul_emod_self
  · by_cases hknown : (s.storeLookup c.normalize).isSome ∨ (alookup s.pending c.normalize).isSome
    · rw [TilePyramid.requestTiles_count_known cs s c.normalize hknown]
      omega
    · push_neg at hknown
      by_cases hmem : ∃ c' ∈ cs, c'.normalize = c.normalize
      · rw [TilePyramid.requestTiles_count_new cs s c.normalize
          (by simpa using hknown.1) (by simpa using hknown.2) hmem]
      · push_neg at hmem
        rw [TilePyramid.requestTiles_count_notmem cs s c.normalize hmem]
        omega
  · intro hs hp hmem
    exact TilePyramid.requestTiles_count_new cs s c.normalize hs hp hmem

/-- Witness for C6: a batch of duplicates and horizontal wrap images of
(1,0,0) dispatched against a fresh pyramid yields exactly one loader call. -/
theorem c6_witness :
    (((TilePyramid.init 256 4).storeLookup
        (⟨1, 0, 0⟩ : TileCoord).normalize).isSome = false ∧
     (alookup (TilePyramid.init 256 4).pending
        (⟨1, 0, 0⟩ : TileCoord).normalize).isSome = false ∧
     (∃ c' ∈ [(⟨1, 0, 0⟩ : TileCoord), ⟨1, 2, 0⟩, ⟨1, -2, 0⟩, ⟨1, 0, 0⟩],
        c'.normalize = (⟨1, 0, 0⟩ : TileCoord).normalize)) ∧
    ((TilePyramid.init 256 4).requestTiles
        [⟨1, 0, 0⟩, ⟨1, 2, 0⟩, ⟨1, -2, 0⟩, ⟨1, 0, 0⟩]).2.2.countP
      (fun d => decide (d.1 = (⟨1, 0, 0⟩ : TileCoord).normalize)) = 1 := by
  refine ⟨⟨by decide, by decide, by decide⟩, ?_⟩
  exact (c6_normalize_dedup (TilePyramid.init 256 4)
      [⟨1, 0, 0⟩, ⟨1, 2, 0⟩, ⟨1, -2, 0⟩, ⟨1, 0, 0⟩] ⟨1, 0, 0⟩ 0 0 0 0).2.2
    (by decide) (by decide) (by decide)

/-- C7: getAvailableLOD resolves in a fixed priority order: the exact tile if
stored (full UV rectangle); else a sub-sampled renderable from the closest
stored ancestor; else one full-UV renderable per tile of a covering
descendant set; else none. -/
theorem c7_lod_priority (s : TilePyramid) (c : TileCoord) :
    (∀ t : Tile, s.getTile c.normalize = some t →
      s.getAvailableLOD c = some [⟨t, (0, 0, 1, 1)⟩]) ∧
    (∀ ta : Tile, s.getTile c.normalize = none →
      s.getClosestAncestorTile c.normalize = some ta →
      s.getAvailableLOD c = some [⟨ta, getUVOffset ta.coord c.normalize⟩]) ∧
    (∀ ts : List Tile, s.getTile c.normalize = none →
      s.getClosestAncestorTile c.normalize = none →
      s.getDescendantTiles c.normalize = some ts →
      s.getAvailableLOD c = some (ts.map (fun t => ⟨t, (0, 0, 1, 1)⟩))) ∧
    (s.getTile c.normalize = none →
      s.getClosestAncestorTile c.normalize = none →
      s.getDescendantTiles c.normalize = none →
      s.getAvailableLOD c = none) := by
  refine ⟨?_, ?_, ?_, ?_⟩
  · intro t h1
    simp [TilePyramid.getAvailableLOD, h1]
  · intro ta h1 h2
    simp [TilePyramid.getAvailableLOD, h1, h2]
  · intro ts h1 h2 h3
    simp [TilePyramid.getAvailableLOD, h1, h2, h3]
  · intro h1 h2 h3
    simp [TilePyramid.getAvailableLOD, h1, h2, h3]

/-- Witness for C7: with only (0,0,0) stored, the exact case applies to the
query (0,0,0) and produces the stored tile with the full UV rectangle. -/
theorem c7_witness :
    ((TilePyramid.storeInsert (TilePyramid.init 256 4) ⟨⟨0, 0, 0⟩, 42⟩).1.getTile
        (⟨0, 0, 0⟩ : TileCoord).normalize = some ⟨⟨0, 0, 0⟩, 42⟩) ∧
    (TilePyramid.storeInsert (TilePyramid.init 256 4) ⟨⟨0, 0, 0⟩, 42⟩).1.getAvailableLOD
        ⟨0, 0, 0⟩ = some [⟨⟨⟨0, 0, 0⟩, 42⟩, (0, 0, 1, 1)⟩] :=
  ⟨by decide,
    (c7_lod_priority (TilePyramid.storeInsert (TilePyramid.init 256 4)
        ⟨⟨0, 0, 0⟩, 42⟩).1 ⟨0, 0, 0⟩).1 ⟨⟨0, 0, 0⟩, 42⟩ (by decide)⟩

namespace TilePyramid

/-- Adding a stale id to the single-coord registry conses it onto the set. -/
theorem staleAdd_staleEntry (n : TileCoord) (L : List Nat) (i : Nat) :
    staleAdd (staleEntry n L) n i = staleEntry n (i :: L) := by
  cases L with
  | nil => simp [staleEntry, staleAdd, alookup]
  | cons a l => simp [staleEntry, staleAdd, alookup]

/-- Removing a stale id from the single-coord registry erases it from the set
(dropping the entry at zero). -/
theorem staleRemove_staleEntry (n : TileCoord) (L : List Nat) (i : Nat) :
    staleRemove (staleEntry n L) n i = staleEntry n (L.erase i) := by
  cases L with
  | nil => simp [staleEntry, staleRemove]
  | cons a l =>
    simp only [staleEntry, List.isEmpty_cons, Bool.false_eq_true, if_false,
      staleRemove, List.map_cons, List.map_nil, if_pos rfl, List.filter]
    split <;> rename_i hemp <;> simp_all [List.isEmpty_iff] <;>
      exact (if_neg (by tauto)).symm

/-- Lookup in the single-coord stale registry. -/
theorem alookup_staleEntry (n : TileCoord) (L : List Nat) (h : L ≠ []) :
    alookup (staleEntry n L) n = some L := by
  cases L with
  | nil => exact absurd rfl h
  | cons a l => simp [staleEntry, alookup]

/-- The ids 0..k-1 in descending order are a permutation of range k. -/
theorem idsDesc_perm_range (K : Nat) : (idsDesc K).Perm (List.range K) := by
  induction K with
  | zero => simp [idsDesc]
  | succ k ih =>
    have h1 : (idsDesc (k + 1)).Perm (k :: List.range k) := List.Perm.cons k ih
    have h2 : (List.range k ++ [k]).Perm (k :: List.range k) :=
      List.perm_append_singleton k (List.range k)
    rw [List.range_succ]
    exact h1.trans h2.symm

/-- K request-and-clear cycles on one coord from a fresh pyramid leave an
empty store, an empty pending registry, and the K issued request ids in the
coord's stale set. -/
theorem iterCycles_eq (CS P : Nat) (c : TileCoord) (K : Nat) :
    iterCycles CS P c K =
      ⟨CS, P, K, [], [], [], staleEntry c.normalize (idsDesc K)⟩ := by
  induction K with
  | zero => simp [iterCycles, init, staleEntry, idsDesc]
  | succ k ih =>
    show cycle c (iterCycles CS P c k) = _
    rw [ih]
    simp only [cycle, requestTiles, storeLookup, alookup, Option.isSome_none,
      Bool.or_self, Bool.false_eq_true, if_false, clear, List.foldl_cons,
      List.foldl_nil, List.append_nil, List.map_nil]
    rw [staleAdd_staleEntry]
    rfl

/-- Resolving, in any order, a set of callbacks whose ids are exactly the
single-coord stale set discards every one of them: each emits one `discard`,
none touches the (empty) store or pending registry, and the stale registry
drains to empty. -/
theorem processAll_stale (n : TileCoord) (CS P k : Nat) :
    ∀ (order : List (Nat × Response)) (L : List Nat),
      (order.map Prod.fst).Perm L →
      processAll ⟨CS, P, k, [], [], [], staleEntry n L⟩ n order =
        (⟨CS, P, k, [], [], [], []⟩, order.map (fun _ => Event.discard n)) := by
  intro order
  induction order with
  | nil =>
    intro L hperm
    have hL : L = [] := List.nil_perm.mp (by simpa using hperm)
    subst hL
    simp [processAll, staleEntry]
  | cons step rest ih =>
    intro L hperm
    obtain ⟨hmem, hperm2⟩ := List.cons_perm_iff_perm_erase.mp (by simpa using hperm)
    have hL : L ≠ [] := by
      intro h
      subst h
      simp at hmem
    have hst : step.1 ∈ (alookup
        ((⟨CS, P, k, [], [], [], staleEntry n L⟩ : TilePyramid).stale) n).getD [] := by
      show step.1 ∈ (alookup (staleEntry n L) n).getD []
      rw [alookup_staleEntry n L hL]
      simpa using hmem
    simp only [processAll]
    rw [processResponse_stale _ n step.1 step.2 hst]
    have hstate : ({ (⟨CS, P, k, [], [], [], staleEntry n L⟩ : TilePyramid) with
        stale := staleRemove (⟨CS, P, k, [], [], [], staleEntry n L⟩ :
          TilePyramid).stale n step.1 } : TilePyramid) =
        ⟨CS, P, k, [], [], [], staleEntry n (L.erase step.1)⟩ := by
      show (⟨CS, P, k, [], [], [], staleRemove (staleEntry n L) n step.1⟩ :
        TilePyramid) = _
      rw [staleRemove_staleEntry]
    rw [hstate, ih (L.erase step.1) hperm2]
    simp

end TilePyramid

/-- C1: for every coord c and every K ≥ 1, after K repetitions of
requestTiles([c]) immediately followed by clear(), and after all K loader
callbacks have resolved in any order (each with an arbitrary response),
exactly K callbacks are discarded via the stale registry (the event trace is
exactly K `discard` events), the final state satisfies ¬has(c) and
¬isPending(c), and no stale callback inserts a tile into the store (both
store regions stay empty). -/
theorem c1_stale_cycles (CS P : Nat) (c : TileCoord) (K : Nat) (hK : 1 ≤ K)
    (order : List (Nat × Response))
    (hperm : (order.map Prod.fst).Perm (List.range K)) :
    (TilePyramid.processAll (TilePyramid.iterCycles CS P c K) c.normalize order).2 =
        order.map (fun _ => Event.discard c.normalize) ∧
    order.length = K ∧
    (TilePyramid.processAll (TilePyramid.iterCycles CS P c K) c.normalize
        order).1.has c = false ∧
    (TilePyramid.processAll (TilePyramid.iterCycles CS P c K) c.normalize
        order).1.isPending c = false ∧
    (TilePyramid.processAll (TilePyramid.iterCycles CS P c K) c.normalize
        order).1.persistent = [] ∧
    (TilePyramid.processAll (TilePyramid.iterCycles CS P c K) c.normalize
        order).1.lru = [] := by
  have hpermL : (order.map Prod.fst).Perm (TilePyramid.idsDesc K) :=
    hperm.trans (TilePyramid.idsDesc_perm_range K).symm
  have heq := TilePyramid.processAll_stale c.normalize CS P K order
    (TilePyramid.idsDesc K) hpermL
  rw [TilePyramid.iterCycles_eq CS P c K, heq]
  have hlen : order.length = K := by
    have := hperm.length_eq
    simpa using this
  exact ⟨rfl, hlen,
    by simp [TilePyramid.has, TilePyramid.getTile, TilePyramid.storeLookup, alookup],
    by simp [TilePyramid.isPending, alookup], rfl, rfl⟩

/-- Witness for C1: two cycles on (0,0,0) followed by the two callbacks
resolving out of order (the newer id first, one success and one failure)
leave a pyramid that neither holds nor pends the coord. -/
theorem c1_witness :
    (1 ≤ 2 ∧
      (([((1 : Nat), Response.success 5 true),
        ((0 : Nat), Response.failure)].map Prod.fst).Perm (List.range 2))) ∧
    (TilePyramid.processAll (TilePyramid.iterCycles 256 4 ⟨0, 0, 0⟩ 2)
        (⟨0, 0, 0⟩ : TileCoord).normalize
        [(1, Response.success 5 true), (0, Response.failure)]).1.has
      ⟨0, 0, 0⟩ = false := by
  refine ⟨⟨by decide, by decide⟩, ?_⟩
  exact (c1_stale_cycles 256 4 ⟨0, 0, 0⟩ 2 (by decide)
    [(1, Response.success 5 true), (0, Response.failure)] (by decide)).2.2.1

namespace TilePyramid

/-- Lookup after a keyed map-update: the updated value at the key, unchanged
elsewhere. -/
theorem alookup_map_update (st : List (TileCoord × List Nat)) (c : TileCoord)
    (f : List Nat → List Nat) :
    alookup (st.map (fun kv => if kv.1 = c then (kv.1, f kv.2) else kv)) c =
      (alookup st c).map f := by
  induction st with
  | nil => rfl
  | cons kv rest ih =>
    by_cases hc : kv.1 = c
    · simp [alookup, hc]
    · simp [alookup, hc, ih]

/-- A keyed map-update does not affect lookups of other keys. -/
theorem alookup_map_update_ne (st : List (TileCoord × List Nat)) (k n : TileCoord)
    (f : List Nat → List Nat) (h : k ≠ n) :
    alookup (st.map (fun kv => if kv.1 = k then (kv.1, f kv.2) else kv)) n =
      alookup st n := by
  induction st with
  | nil => rfl
  | cons kv rest ih =>
    by_cases hc : kv.1 = k
    · have hn : kv.1 ≠ n := by rw [hc]; exact h
      simp [alookup, hc, hn, ih, h]
    · by_cases hn : kv.1 = n <;> simp [alookup, hc, hn, ih, h, Ne.symm h]

/-- staleAdd conses the new id onto the key's set. -/
theorem alookup_staleAdd_self (st : List (TileCoord × List Nat)) (c : TileCoord)
    (i : Nat) :
    alookup (staleAdd st c i) c = some (i :: (alookup st c).getD []) := by
  unfold staleAdd
  cases h : alookup st c with
  | none => simp [alookup]
  | some L =>
    rw [alookup_map_update st c (fun l => i :: l), h]
    rfl

/-- staleAdd leaves other keys untouched. -/
theorem alookup_staleAdd_ne (st : List (TileCoord × List Nat)) (k n : TileCoord)
    (i : Nat) (hkn : k ≠ n) :
    alookup (staleAdd st k i) n = alookup st n := by
  unfold staleAdd
  cases h : alookup st k with
  | none => simp [alookup, hkn]
  | some L => exact alookup_map_update_ne st k n (fun l => i :: l) hkn

/-- Folding staleAdd over records with other keys leaves a key's set
untouched. -/
theorem alookup_foldl_staleAdd_ne (l : List (TileCoord × Nat)) (n : TileCoord) :
    ∀ (st : List (TileCoord × List Nat)), (∀ kv ∈ l, kv.1 ≠ n) →
      alookup (l.foldl (fun st kv => staleAdd st kv.1 kv.2) st) n = alookup st n := by
  induction l with
  | nil => intro st _; rfl
  | cons a rest ih =>
    intro st h
    simp only [List.foldl_cons]
    rw [ih (staleAdd st a.1 a.2) (fun kv hkv => h kv (List.mem_cons_of_mem _ hkv))]
    exact alookup_staleAdd_ne st a.1 n a.2 (h a (List.mem_cons_self _ _))

/-- staleAdd preserves an upper bound on registered ids. -/
theorem staleAdd_bound (st : List (TileCoord × List Nat)) (c : TileCoord)
    (i B : Nat) (hst : ∀ kv ∈ st, ∀ j ∈ kv.2, j < B) (hi : i < B) :
    ∀ kv ∈ staleAdd st c i, ∀ j ∈ kv.2, j < B := by
  unfold staleAdd
  cases h : alookup st c with
  | none =>
    intro kv hkv
    rcases List.mem_cons.mp hkv with rfl | h2
    · intro j hj
      simp only [List.mem_singleton] at hj
      subst hj
      exact hi
    · exact hst kv h2
  | some L =>
    intro kv hkv j hj
    rcases List.mem_map.mp hkv with ⟨kv0, hkv0, hfk⟩
    by_cases hc : kv0.1 = c
    · rw [if_pos hc] at hfk
      subst hfk
      rcases List.mem_cons.mp hj with rfl | h2
      · exact hi
      · exact hst kv0 hkv0 j h2
    · rw [if_neg hc] at hfk
      subst hfk
      exact hst kv0 hkv0 j hj

/-- Folding staleAdd over bounded records preserves the bound. -/
theorem foldl_staleAdd_bound (l : List (TileCoord × Nat)) (B : Nat) :
    ∀ (st : List (TileCoord × List Nat)), (∀ kv ∈ st, ∀ j ∈ kv.2, j < B) →
      (∀ kv ∈ l, kv.2 < B) →
      ∀ kv ∈ l.foldl (fun st kv => staleAdd st kv.1 kv.2) st, ∀ j ∈ kv.2, j < B := by
  induction l with
  | nil =>
    intro st hst _
    simpa using hst
  | cons a rest ih =>
    intro st hst hl
    simp only [List.foldl_cons]
    exact ih (staleAdd st a.1 a.2)
      (staleAdd_bound st a.1 a.2 B hst (hl a (List.mem_cons_self _ _)))
      (fun kv hkv => hl kv (List.mem_cons_of_mem _ hkv))

/-- staleRemove preserves an upper bound on registered ids. -/
theorem staleRemove_bound (st : List (TileCoord × List Nat)) (c : TileCoord)
    (i B : Nat) (hst : ∀ kv ∈ st, ∀ j ∈ kv.2, j < B) :
    ∀ kv ∈ staleRemove st c i, ∀ j ∈ kv.2, j < B := by
  unfold staleRemove
  intro kv hkv j hj
  have hkv2 := List.mem_of_mem_filter hkv
  rcases List.mem_map.mp hkv2 with ⟨kv0, hkv0, hfk⟩
  by_cases hc : kv0.1 = c
  · rw [if_pos hc] at hfk
    subst hfk
    exact hst kv0 hkv0 j (List.mem_of_mem_erase hj)
  · rw [if_neg hc] at hfk
    subst hfk
    exact hst kv0 hkv0 j hj

/-- An id at or above the bound is in no stale set. -/
theorem bound_notMem (st : List (TileCoord × List Nat)) (c : TileCoord) (B j : Nat)
    (hst : ∀ kv ∈ st, ∀ i ∈ kv.2, i < B) (hj : B ≤ j) :
    j ∉ (alookup st c).getD [] := by
  cases h : alookup st c with
  | none => simp
  | some L =>
    intro hjL
    exact absurd (hst (c, L) (alookup_mem st c L h) j (by simpa using hjL))
      (not_lt.mpr hj)

end TilePyramid

/-- C2: immediately after clear() returns, has and isPending are false for
every coord, including coords whose loader callbacks have not yet fired;
when clear() is invoked re-entrantly between a request and its callback, the
callback follows the stale path (one `discard`, no tile stored, nothing
pending), and a subsequent requestTiles for the same coord starts a fresh
pending record unaffected by the stale counter: it is pending again, and its
own callback succeeds (the tile is stored and `add` is emitted).  Stated for
any well-formed state: all registered request ids precede nextId. -/
theorem c2_clear_immediate_and_reentrant (s : TilePyramid) (c c2 : TileCoord)
    (p : Nat) (r : Response)
    (hWFp : ∀ kv ∈ s.pending, kv.2 < s.nextId)
    (hWFs : ∀ kv ∈ s.stale, ∀ j ∈ kv.2, j < s.nextId)
    (hhas : s.has c = false)
    (hpend : s.isPending c = false)
    (hcs : 1 ≤ s.cacheSize) :
    (s.clear.1.has c2 = false ∧ s.clear.1.isPending c2 = false) ∧
    (((s.requestTiles [c]).1.clear.1.processResponse c.normalize s.nextId r).2 =
        [Event.discard c.normalize]) ∧
    (((s.requestTiles [c]).1.clear.1.processResponse c.normalize s.nextId r).1.has c
        = false) ∧
    (((s.requestTiles [c]).1.clear.1.processResponse c.normalize
        s.nextId r).1.isPending c = false) ∧
    ((((s.requestTiles [c]).1.clear.1.processResponse c.normalize
        s.nextId r).1.requestTiles [c]).1.isPending c = true) ∧
    (((((s.requestTiles [c]).1.clear.1.processResponse c.normalize
        s.nextId r).1.requestTiles [c]).1.processResponse c.normalize (s.nextId + 1)
        (Response.success p true)).1.has c = true) ∧
    (Event.add ⟨c.normalize, p⟩ ∈
      ((((s.requestTiles [c]).1.clear.1.processResponse c.normalize
        s.nextId r).1.requestTiles [c]).1.processResponse c.normalize (s.nextId + 1)
        (Response.success p true)).2) := by
  have hhas1 : (s.storeLookup c.normalize).isSome = false := hhas
  have hpend1 : (alookup s.pending c.normalize).isSome = false := hpend
  have hpnone : alookup s.pending c.normalize = none := by
    cases h : alookup s.pending c.normalize with
    | none => rfl
    | some v => rw [h] at hpend1; simp at hpend1
  have hkeys : ∀ kv ∈ s.pending, kv.1 ≠ c.normalize :=
    alookup_eq_none_forall s.pending c.normalize hpnone
  have e1 : s.requestTiles [c] =
      ({ s with pending := (c.normalize, s.nextId) :: s.pending, nextId := s.nextId + 1 },
        [Event.request c.normalize], [(c.normalize, s.nextId)]) := by
    simp only [TilePyramid.requestTiles]
    rw [if_neg (by simp [hhas1, hpend1])]
  have e2 : (s.requestTiles [c]).1.clear.1 =
      (⟨s.cacheSize, s.persistentLevels, s.nextId + 1, [], [], [],
        s.pending.foldl (fun st kv => TilePyramid.staleAdd st kv.1 kv.2)
          (TilePyramid.staleAdd s.stale c.normalize s.nextId)⟩ : TilePyramid) := by
    rw [e1]
    rfl
  have hlook2 : alookup
      (s.pending.foldl (fun st kv => TilePyramid.staleAdd st kv.1 kv.2)
        (TilePyramid.staleAdd s.stale c.normalize s.nextId)) c.normalize =
      some (s.nextId :: (alookup s.stale c.normalize).getD []) := by
    rw [TilePyramid.alookup_foldl_staleAdd_ne s.pending c.normalize
      (TilePyramid.staleAdd s.stale c.normalize s.nextId) hkeys]
    exact TilePyramid.alookup_staleAdd_self s.stale c.normalize s.nextId
  have hmem2 : s.nextId ∈ (alookup
      (s.pending.foldl (fun st kv => TilePyramid.staleAdd st kv.1 kv.2)
        (TilePyramid.staleAdd s.stale c.normalize s.nextId)) c.normalize).getD [] := by
    rw [hlook2]
    exact List.mem_cons_self _ _
  have e3 : ((s.requestTiles [c]).1.clear.1.processResponse c.normalize s.nextId r) =
      ((⟨s.cacheSize, s.persistentLevels, s.nextId + 1, [], [], [],
          TilePyramid.staleRemove
            (s.pending.foldl (fun st kv => TilePyramid.staleAdd st kv.1 kv.2)
              (TilePyramid.staleAdd s.stale c.normalize s.nextId))
            c.normalize s.nextId⟩ : TilePyramid),
        [Event.discard c.normalize]) := by
    rw [e2]
    exact TilePyramid.processResponse_stale _ c.normalize s.nextId r hmem2
  have e4 : ((s.requestTiles [c]).1.clear.1.processResponse c.normalize
      s.nextId r).1.requestTiles [c] =
      ((⟨s.cacheSize, s.persistentLevels, s.nextId + 2, [], [],
          [(c.normalize, s.nextId + 1)],
          TilePyramid.staleRemove
            (s.pending.foldl (fun st kv => TilePyramid.staleAdd st kv.1 kv.2)
              (TilePyramid.staleAdd s.stale c.normalize s.nextId))
            c.normalize s.nextId⟩ : TilePyramid),
        [Event.request c.normalize], [(c.normalize, s.nextId + 1)]) := by
    rw [e3]
    simp only [TilePyramid.requestTiles]
    rw [if_neg (by simp [TilePyramid.storeLookup, alookup])]
  have hb1 : ∀ kv ∈ s.stale, ∀ j ∈ kv.2, j < s.nextId + 1 :=
    fun kv hkv j hj => Nat.lt_succ_of_lt (hWFs kv hkv j hj)
  have hb2 := TilePyramid.staleAdd_bound s.stale c.normalize s.nextId
    (s.nextId + 1) hb1 (Nat.lt_succ_self _)
  have hb3 := TilePyramid.foldl_staleAdd_bound s.pending (s.nextId + 1)
    (TilePyramid.staleAdd s.stale c.normalize s.nextId) hb2
    (fun kv hkv => Nat.lt_succ_of_lt (hWFp kv hkv))
  have hb4 := TilePyramid.staleRemove_bound
    (s.pending.foldl (fun st kv => TilePyramid.staleAdd st kv.1 kv.2)
      (TilePyramid.staleAdd s.stale c.normalize s.nextId))
    c.normalize s.nextId (s.nextId + 1) hb3
  have hnm : (s.nextId + 1) ∉ (alookup
      (TilePyramid.staleRemove
        (s.pending.foldl (fun st kv => TilePyramid.staleAdd st kv.1 kv.2)
          (TilePyramid.staleAdd s.stale c.normalize s.nextId))
        c.normalize s.nextId) c.normalize).getD [] :=
    TilePyramid.bound_notMem _ c.normalize (s.nextId + 1) (s.nextId + 1) hb4
      (le_refl _)
  refine ⟨?_, by rw [e3], by rw [e3]; simp [TilePyramid.has, TilePyramid.getTile,
      TilePyramid.storeLookup, alookup],
    by rw [e3]; simp [TilePyramid.isPending, alookup],
    by rw [e4]; simp [TilePyramid.isPending, alookup], ?_, ?_⟩
  · constructor
    · simp [TilePyramid.clear, TilePyramid.has, TilePyramid.getTile,
        TilePyramid.storeLookup, alookup]
    · simp [TilePyramid.clear, TilePyramid.isPending, alookup]
  · rw [e4,
      TilePyramid.processResponse_fresh_inview _ c.normalize (s.nextId + 1) p hnm
        (by simp [alookup])]
    exact TilePyramid.storeInsert_lookup_isSome _ ⟨c.normalize, p⟩ hcs
  · rw [e4,
      TilePyramid.processResponse_fresh_inview _ c.normalize (s.nextId + 1) p hnm
        (by simp [alookup])]
    exact List.mem_cons_self _ _

/-- Witness for C2: from a fresh pyramid, request (0,0,0), clear re-entrantly,
resolve the stale callback, re-request and resolve freshly: the tile is
stored. -/
theorem c2_witness :
    ((∀ kv ∈ (TilePyramid.init 256 4).pending, kv.2 < (TilePyramid.init 256 4).nextId) ∧
     (∀ kv ∈ (TilePyramid.init 256 4).stale, ∀ j ∈ kv.2,
        j < (TilePyramid.init 256 4).nextId) ∧
     (TilePyramid.init 256 4).has ⟨0, 0, 0⟩ = false ∧
     (TilePyramid.init 256 4).isPending ⟨0, 0, 0⟩ = false ∧
     1 ≤ (TilePyramid.init 256 4).cacheSize) ∧
    (((((TilePyramid.init 256 4).requestTiles
        [⟨0, 0, 0⟩]).1.clear.1.processResponse (⟨0, 0, 0⟩ : TileCoord).normalize
        (TilePyramid.init 256 4).nextId Response.failure).1.requestTiles
        [⟨0, 0, 0⟩]).1.processResponse (⟨0, 0, 0⟩ : TileCoord).normalize
        ((TilePyramid.init 256 4).nextId + 1)
        (Response.success 9 true)).1.has ⟨0, 0, 0⟩ = true := by
  refine ⟨⟨by simp [TilePyramid.init], by simp [TilePyramid.init], by decide,
    by decide, by decide⟩, ?_⟩
  exact (c2_clear_immediate_and_reentrant (TilePyramid.init 256 4) ⟨0, 0, 0⟩
    ⟨0, 0, 0⟩ 9 Response.failure (by simp [TilePyramid.init])
    (by simp [TilePyramid.init]) (by decide) (by decide) (by decide)).2.2.2.2.2.1
